import Mathlib

/-!
# Verification of the `spi-pio` SD-card example and its FAT session subsystem

The repository's one source file, `examples/pico_spi_pio_sd_card.rs`, wires an
SPI-over-PIO transport to an SD card and the `embedded_sdmmc` FAT driver, then
runs a scripted read/write/verify sequence with LED-blink status signalling.

This development embeds, shallowly:

* the example's own logic (blink signal constants, `blink_signals`, and the
  control flow of `main`: stage-success blinks, error-loop patterns, the
  `successful_read` flag and the final status loop), translated directly from
  the Rust source; and
* the FAT32 session subsystem the specification describes (partition lookup,
  cluster chains, directory entries, file handles, open/read/write/close).
  That subsystem lives in the external `embedded_sdmmc` crate, not in this
  repository, so it is modelled from the specification's words; each such
  definition carries a `Modelled from the spec` comment.

Machine integers are modelled as `Nat`: every value manipulated here (byte
values, sector offsets, cluster indices, lengths) stays far below any
relevant overflow bound, and no arithmetic in the source wraps.
-/

namespace SpiPioSd

/-! ## Blink signal constants

Translated from the `BLINK_*` constants of the example source.  A signal is a
list of `u8` values; `blink_signals` drives one LED from it. -/

def BLINK_OK_LONG : List Nat := [8]

def BLINK_OK_SHORT_LONG : List Nat := [1, 0, 6, 0]

def BLINK_OK_SHORT_SHORT_LONG : List Nat := [1, 0, 1, 0, 6, 0]

def BLINK_ERR_2_SHORT : List Nat := [1, 0, 1, 0]

def BLINK_ERR_3_SHORT : List Nat := [1, 0, 1, 0, 1, 0]

def BLINK_ERR_4_SHORT : List Nat := [1, 0, 1, 0, 1, 0, 1, 0]

def BLINK_ERR_5_SHORT : List Nat := [1, 0, 1, 0, 1, 0, 1, 0, 1, 0]

/-- Observable actions `blink_signals` performs on its pin and delay source. -/
inductive PinEvent
  | high
  | low
  | delayMs (n : Nat)
  deriving DecidableEq, Repr

/-- Shallow embedding of the example's `blink_signals`: for each element it
sets the pin high when the value is nonzero (low otherwise), then delays
100 ms once per unit of `if bit > 0 then bit else 1`; afterwards it drives the
pin low and delays 500 ms. The embedding records the event trace. -/
def blink_signals (sig : List Nat) : List PinEvent :=
  (sig.flatMap fun bit =>
    (if bit ≠ 0 then PinEvent.high else PinEvent.low) ::
      List.replicate (if 0 < bit then bit else 1) (PinEvent.delayMs 100))
  ++ [PinEvent.low, PinEvent.delayMs 500]

/-- Semantics of an event trace: the pin level held during each delay,
as a list of (level, milliseconds) pairs, starting from level `lvl`. -/
def timeline : List PinEvent → Bool → List (Bool × Nat)
  | [], _ => []
  | PinEvent.high :: rest, _ => timeline rest true
  | PinEvent.low :: rest, _ => timeline rest false
  | PinEvent.delayMs d :: rest, lvl => (lvl, d) :: timeline rest lvl

/-- The pin level left behind after an event trace runs from level `lvl`. -/
def finalLevel : List PinEvent → Bool → Bool
  | [], lvl => lvl
  | PinEvent.high :: rest, _ => finalLevel rest true
  | PinEvent.low :: rest, _ => finalLevel rest false
  | PinEvent.delayMs _ :: rest, lvl => finalLevel rest lvl

theorem timeline_append (l₁ l₂ : List PinEvent) (lvl : Bool) :
    timeline (l₁ ++ l₂) lvl = timeline l₁ lvl ++ timeline l₂ (finalLevel l₁ lvl) := by
  induction l₁ generalizing lvl with
  | nil => rfl
  | cons e rest ih => cases e <;> simp [timeline, finalLevel, ih]

theorem finalLevel_append (l₁ l₂ : List PinEvent) (lvl : Bool) :
    finalLevel (l₁ ++ l₂) lvl = finalLevel l₂ (finalLevel l₁ lvl) := by
  induction l₁ generalizing lvl with
  | nil => rfl
  | cons e rest ih => cases e <;> simp [finalLevel, ih]

theorem timeline_replicate_delay (n d : Nat) (lvl : Bool) :
    timeline (List.replicate n (PinEvent.delayMs d)) lvl = List.replicate n (lvl, d) := by
  induction n with
  | zero => rfl
  | succ n ih => simp [List.replicate_succ, timeline, ih]

theorem finalLevel_replicate_delay (n d : Nat) (lvl : Bool) :
    finalLevel (List.replicate n (PinEvent.delayMs d)) lvl = lvl := by
  induction n with
  | zero => rfl
  | succ n ih => simp [List.replicate_succ, finalLevel, ih]

theorem timeline_elem (b : Nat) (evs : List PinEvent) (lvl : Bool) :
    timeline (((if b ≠ 0 then PinEvent.high else PinEvent.low) ::
        List.replicate (if 0 < b then b else 1) (PinEvent.delayMs 100)) ++ evs) lvl
      = List.replicate (max b 1) ((b != 0), 100) ++ timeline evs (b != 0) := by
  by_cases hb : b = 0
  · subst hb
    have h1 : (if (0 : Nat) ≠ 0 then PinEvent.high else PinEvent.low) = PinEvent.low := by
      simp
    have h2 : (if (0 : Nat) < 0 then 0 else 1) = 1 := by simp
    rw [h1, h2, List.cons_append]
    simp [timeline]
  · have hb0 : 0 < b := Nat.pos_of_ne_zero hb
    have h1 : (if b ≠ 0 then PinEvent.high else PinEvent.low) = PinEvent.high := if_pos hb
    have h2 : (if 0 < b then b else 1) = b := if_pos hb0
    have h3 : (b != 0) = true := by simpa using hb
    rw [h1, h2, List.cons_append]
    simp only [timeline]
    rw [timeline_append, timeline_replicate_delay, finalLevel_replicate_delay]
    simp [h3, Nat.max_eq_left hb0]

theorem timeline_blink_core (sig : List Nat) (lvl : Bool) :
    timeline
        (sig.flatMap fun bit =>
          (if bit ≠ 0 then PinEvent.high else PinEvent.low) ::
            List.replicate (if 0 < bit then bit else 1) (PinEvent.delayMs 100)) lvl
      = sig.flatMap fun bit => List.replicate (max bit 1) ((bit != 0), 100) := by
  induction sig generalizing lvl with
  | nil => rfl
  | cons b rest ih =>
    rw [List.flatMap_cons, List.flatMap_cons, timeline_elem, ih]

/-- Claim C9: for every input signal sequence, `blink_signals` drives the pin
high exactly for the nonzero elements and low for the zero elements, holds
each element's level for `max value 1` delay units of 100 ms, and always ends
with the pin driven low followed by a 500 ms pause — for the empty sequence
and for sequences ending on a nonzero element alike. -/
theorem blink_signals_semantics (sig : List Nat) :
    timeline (blink_signals sig) false
        = (sig.flatMap fun bit => List.replicate (max bit 1) ((bit != 0), 100))
          ++ [(false, 500)]
      ∧ finalLevel (blink_signals sig) false = false := by
  constructor
  · rw [blink_signals, timeline_append, timeline_blink_core]
    simp [timeline]
  · rw [blink_signals, finalLevel_append]
    simp [finalLevel]

/-! ## The control flow of `main`

`main` performs six externally-visible stages (card sized, volume opened, root
directory opened, directory listed, file read attempted, file written), blinks
`BLINK_OK_LONG` after each, and on a stage failure enters
`blink_signals_loop` with a stage-specific error pattern.  The trace model
below records the sequence of blink signals emitted, up to and including the
first signal that is then repeated forever (an error pattern, or the final
status pattern). -/

/-- The failure points of `main` that enter an error blink loop. -/
inductive FailureKind
  | cardSize
  | volume
  | rootDir
  | fileOpen
  deriving DecidableEq, Repr

/-- The error pattern `main` loops on for each failure point (from the
`blink_signals_loop` call sites in the source). -/
def errSignal : FailureKind → List Nat
  | FailureKind.cardSize => BLINK_ERR_2_SHORT
  | FailureKind.volume => BLINK_ERR_3_SHORT
  | FailureKind.rootDir => BLINK_ERR_4_SHORT
  | FailureKind.fileOpen => BLINK_ERR_5_SHORT

/-- Outcomes of the fallible steps of one run of `main`.  `readOpen` is
`none` when `open_file_in_dir(dir, "O.TST", ReadOnly)` fails, and otherwise
carries the `read` count together with the 32-byte buffer contents after the
read. -/
structure RunInput where
  cardSizeOk : Bool
  volumeOk : Bool
  rootDirOk : Bool
  readOpen : Option (Nat × List Nat)
  writeOpenOk : Bool

/-- The example's `successful_read` flag: set exactly when the ReadOnly open
succeeded, at least 2 bytes were read, and the buffer starts `0x42, 0x1E`. -/
def successfulRead : Option (Nat × List Nat) → Bool
  | none => false
  | some (readCount, buf) =>
    decide (2 ≤ readCount) && (buf.getD 0 0 == 0x42) && (buf.getD 1 0 == 0x1E)

/-- The pattern the final status loop of `main` repeats forever. -/
def finalPattern (successfulRead : Bool) : List Nat :=
  if successfulRead then BLINK_OK_SHORT_SHORT_LONG else BLINK_OK_SHORT_LONG

/-- Shallow embedding of `main`'s signalling control flow: the sequence of
blink signals, ending with the first signal of whichever loop the run enters.
Mirrors the source order: card size, volume, root directory, directory
listing, the guarded read of `O.TST` (whose failed open emits no error
signal), the create-or-truncate write, then the final status loop. -/
def mainTrace (i : RunInput) : List (List Nat) :=
  if !i.cardSizeOk then [errSignal FailureKind.cardSize]
  else BLINK_OK_LONG ::
    if !i.volumeOk then [errSignal FailureKind.volume]
    else BLINK_OK_LONG ::
      if !i.rootDirOk then [errSignal FailureKind.rootDir]
      else BLINK_OK_LONG :: BLINK_OK_LONG :: BLINK_OK_LONG ::
        if !i.writeOpenOk then [errSignal FailureKind.fileOpen]
        else [BLINK_OK_LONG, finalPattern (successfulRead i.readOpen)]

/-- Claim C3: each of the six major stages yields a stage-success signal
(`BLINK_OK_LONG`) on the all-success path; each failure kind ends the trace
with its own pattern; and the failure-kind-to-signal mapping is injective and
disjoint from the success signal, so no two failure kinds signal alike. -/
theorem stage_signals :
    (∀ i : RunInput, i.cardSizeOk = true → i.volumeOk = true → i.rootDirOk = true →
        i.writeOpenOk = true →
        mainTrace i
          = List.replicate 6 BLINK_OK_LONG ++ [finalPattern (successfulRead i.readOpen)])
    ∧ (∀ i : RunInput, i.cardSizeOk = false →
        mainTrace i = [errSignal FailureKind.cardSize])
    ∧ (∀ i : RunInput, i.cardSizeOk = true → i.volumeOk = false →
        mainTrace i = [BLINK_OK_LONG, errSignal FailureKind.volume])
    ∧ (∀ i : RunInput, i.cardSizeOk = true → i.volumeOk = true → i.rootDirOk = false →
        mainTrace i = [BLINK_OK_LONG, BLINK_OK_LONG, errSignal FailureKind.rootDir])
    ∧ (∀ i : RunInput, i.cardSizeOk = true → i.volumeOk = true → i.rootDirOk = true →
        i.writeOpenOk = false →
        mainTrace i = List.replicate 5 BLINK_OK_LONG ++ [errSignal FailureKind.fileOpen])
    ∧ (∀ k₁ k₂ : FailureKind, errSignal k₁ = errSignal k₂ → k₁ = k₂)
    ∧ (∀ k : FailureKind, errSignal k ≠ BLINK_OK_LONG) := by
  refine ⟨?_, ?_, ?_, ?_, ?_, ?_, ?_⟩
  · intro i h₁ h₂ h₃ h₄
    simp [mainTrace, h₁, h₂, h₃, h₄, List.replicate]
  · intro i h₁
    simp [mainTrace, h₁]
  · intro i h₁ h₂
    simp [mainTrace, h₁, h₂]
  · intro i h₁ h₂ h₃
    simp [mainTrace, h₁, h₂, h₃]
  · intro i h₁ h₂ h₃ h₄
    simp [mainTrace, h₁, h₂, h₃, h₄, List.replicate]
  · intro k₁ k₂ h
    cases k₁ <;> cases k₂ <;> first
      | rfl
      | exact absurd h (by decide)
  · intro k
    cases k <;> decide

theorem stage_signals_witness :
    mainTrace ⟨true, true, true, none, true⟩
      = List.replicate 6 BLINK_OK_LONG ++ [finalPattern false] := by
  have h := stage_signals.1 ⟨true, true, true, none, true⟩ rfl rfl rfl rfl
  simpa [successfulRead] using h

/-- Claim C10: when all fallible stages before the final loop succeed, the
final status loop blinks short-short-long exactly when the earlier ReadOnly
read of `O.TST` succeeded with at least 2 bytes whose first two are
`0x42, 0x1E`; in every other case it blinks short-long; and no error signal
appears in the trace, in particular a failed ReadOnly open of `O.TST` never
triggers one. -/
theorem final_loop_pattern (i : RunInput)
    (hc : i.cardSizeOk = true) (hv : i.volumeOk = true) (hr : i.rootDirOk = true)
    (hw : i.writeOpenOk = true) :
    ((mainTrace i).getLast? = some BLINK_OK_SHORT_SHORT_LONG ↔
        ∃ readCount buf, i.readOpen = some (readCount, buf) ∧ 2 ≤ readCount ∧
          buf.getD 0 0 = 0x42 ∧ buf.getD 1 0 = 0x1E)
    ∧ ((mainTrace i).getLast? = some BLINK_OK_SHORT_LONG ↔
        ¬ ∃ readCount buf, i.readOpen = some (readCount, buf) ∧ 2 ≤ readCount ∧
          buf.getD 0 0 = 0x42 ∧ buf.getD 1 0 = 0x1E)
    ∧ (∀ k : FailureKind, errSignal k ∉ mainTrace i) := by
  have htr : mainTrace i
      = List.replicate 6 BLINK_OK_LONG ++ [finalPattern (successfulRead i.readOpen)] :=
    stage_signals.1 i hc hv hr hw
  have hread : successfulRead i.readOpen = true ↔
      ∃ readCount buf, i.readOpen = some (readCount, buf) ∧ 2 ≤ readCount ∧
        buf.getD 0 0 = 0x42 ∧ buf.getD 1 0 = 0x1E := by
    cases hro : i.readOpen with
    | none => simp [successfulRead]
    | some v =>
      obtain ⟨readCount, buf⟩ := v
      simp only [successfulRead, Bool.and_eq_true, decide_eq_true_eq, beq_iff_eq,
        Option.some.injEq, Prod.mk.injEq]
      constructor
      · rintro ⟨⟨h₁, h₂⟩, h₃⟩
        exact ⟨readCount, buf, ⟨rfl, rfl⟩, h₁, h₂, h₃⟩
      · rintro ⟨rc, b, ⟨hrc, hb⟩, h₁, h₂, h₃⟩
        subst hrc; subst hb
        exact ⟨⟨h₁, h₂⟩, h₃⟩
  refine ⟨?_, ?_, ?_⟩
  · rw [htr, ← hread]
    cases hs : successfulRead i.readOpen <;>
      simp [finalPattern, BLINK_OK_SHORT_SHORT_LONG, BLINK_OK_SHORT_LONG, List.replicate]
  · rw [htr, ← hread]
    cases hs : successfulRead i.readOpen <;>
      simp [finalPattern, BLINK_OK_SHORT_SHORT_LONG, BLINK_OK_SHORT_LONG, List.replicate]
  · intro k
    rw [htr]
    cases hs : successfulRead i.readOpen <;> cases k <;>
      simp [finalPattern, errSignal, BLINK_OK_SHORT_SHORT_LONG, BLINK_OK_SHORT_LONG,
        BLINK_OK_LONG, BLINK_ERR_2_SHORT, BLINK_ERR_3_SHORT, BLINK_ERR_4_SHORT,
        BLINK_ERR_5_SHORT, List.replicate]

theorem final_loop_pattern_witness :
    (mainTrace ⟨true, true, true, some (2, [0x42, 0x1E]), true⟩).getLast?
      = some BLINK_OK_SHORT_SHORT_LONG :=
  (final_loop_pattern ⟨true, true, true, some (2, [0x42, 0x1E]), true⟩
      rfl rfl rfl rfl).1.mpr
    ⟨2, [0x42, 0x1E], rfl, by decide, by decide, by decide⟩

/-! ## Error taxonomy of the session subsystem

Modelled from the spec: the failure categories of section 7, one constructor
per category, distinct by construction. -/

inductive FsError
  | DeviceFault
  | NoValidPartition
  | UnsupportedVolume
  | NotFound
  | AlreadyExists
  | AlreadyOpen
  | DirectoryFull
  | DeviceFull
  | CorruptChain
  deriving DecidableEq, Repr

/-! ## PartitionTable -/

/-- A parsed MBR partition entry, per the spec's data model. -/
structure PartitionDescriptor where
  typeByte : Nat
  startLba : Nat
  sectorCount : Nat
  deriving DecidableEq, Repr

/-- Little-endian 32-bit read from a byte list at offset `off`. -/
def leU32 (s : List Nat) (off : Nat) : Nat :=
  s.getD off 0 + 256 * s.getD (off + 1) 0 + 65536 * s.getD (off + 2) 0
    + 16777216 * s.getD (off + 3) 0

/-- Byte offset of the `i`-th 16-byte MBR partition entry. -/
def entryOffset (i : Nat) : Nat := 446 + 16 * i

/-- The partition-type byte of the `i`-th MBR entry. -/
def entryType (s : List Nat) (i : Nat) : Nat := s.getD (entryOffset i + 4) 0

/-- True for the FAT32 (`0x0B`) and FAT32-LBA (`0x0C`) partition types. -/
def isFat32Type (t : Nat) : Bool := t == 0x0B || t == 0x0C

/-- True when the MBR boot signature `0x55 0xAA` sits at offsets 510/511. -/
def bootSigValid (s : List Nat) : Bool :=
  (s.getD 510 0 == 0x55) && (s.getD 511 0 == 0xAA)

/-- Modelled from the spec: `locate_fat32_partition` (section 4.2), which this
repository delegates to the external FAT driver.  It reads sector 0 (passed
here as the byte list `sector0`), validates the boot signature, scans the four
fixed-size partition entries in order, and selects the first one whose type
byte is FAT32 or FAT32-LBA, returning its start LBA and sector count; it
fails with `NoValidPartition` when the signature is absent or no entry
matches. -/
def locate_fat32_partition (sector0 : List Nat) : Except FsError PartitionDescriptor :=
  if bootSigValid sector0 then
    match (List.range 4).find? (fun i => isFat32Type (entryType sector0 i)) with
    | some i =>
      Except.ok ⟨entryType sector0 i, leU32 sector0 (entryOffset i + 8),
        leU32 sector0 (entryOffset i + 12)⟩
    | none => Except.error FsError.NoValidPartition
  else Except.error FsError.NoValidPartition

/-- Claim C5: `locate_fat32_partition` fails with `NoValidPartition` when the
boot signature is absent or no entry has type `0x0B`/`0x0C`, and otherwise
deterministically returns the start LBA and sector count of the first
matching entry (first match wins, also when several entries match). -/
theorem locate_fat32_partition_spec (s : List Nat) :
    (bootSigValid s = false →
      locate_fat32_partition s = Except.error FsError.NoValidPartition)
    ∧ ((∀ i < 4, isFat32Type (entryType s i) = false) →
      locate_fat32_partition s = Except.error FsError.NoValidPartition)
    ∧ (∀ j, j < 4 → bootSigValid s = true → isFat32Type (entryType s j) = true →
      (∀ i < j, isFat32Type (entryType s i) = false) →
      locate_fat32_partition s
        = Except.ok ⟨entryType s j, leU32 s (entryOffset j + 8),
            leU32 s (entryOffset j + 12)⟩) := by
  have hrange : List.range 4 = [0, 1, 2, 3] := rfl
  have stepPos : ∀ (a : Nat) (l : List Nat), isFat32Type (entryType s a) = true →
      List.find? (fun i => isFat32Type (entryType s i)) (a :: l) = some a :=
    fun _ l h => List.find?_cons_of_pos l h
  have stepNeg : ∀ (a : Nat) (l : List Nat), isFat32Type (entryType s a) = false →
      List.find? (fun i => isFat32Type (entryType s i)) (a :: l)
        = List.find? (fun i => isFat32Type (entryType s i)) l :=
    fun _ l h => List.find?_cons_of_neg l (by simp [h])
  refine ⟨?_, ?_, ?_⟩
  · intro h
    rw [locate_fat32_partition, if_neg (by simp [h])]
  · intro h
    rw [locate_fat32_partition]
    split
    · rw [hrange, stepNeg 0 _ (h 0 (by omega)), stepNeg 1 _ (h 1 (by omega)),
        stepNeg 2 _ (h 2 (by omega)), stepNeg 3 _ (h 3 (by omega))]
      rfl
    · rfl
  · intro j hj hsig hmatch hprev
    rw [locate_fat32_partition, if_pos hsig, hrange]
    interval_cases j
    · rw [stepPos 0 _ hmatch]
    · rw [stepNeg 0 _ (hprev 0 (by omega)), stepPos 1 _ hmatch]
    · rw [stepNeg 0 _ (hprev 0 (by omega)), stepNeg 1 _ (hprev 1 (by omega)),
        stepPos 2 _ hmatch]
    · rw [stepNeg 0 _ (hprev 0 (by omega)), stepNeg 1 _ (hprev 1 (by omega)),
        stepNeg 2 _ (hprev 2 (by omega)), stepPos 3 _ hmatch]

/-- An MBR whose entry 0 is a Linux partition (`0x83`), entry 1 a FAT32
partition at LBA 2048 with 1000 sectors, and entry 2 a FAT32-LBA partition:
the first-match policy must pick entry 1. -/
def mbrSample : List Nat :=
  ((((((((List.replicate 512 0).set 510 0x55).set 511 0xAA).set
    (entryOffset 0 + 4) 0x83).set
    (entryOffset 1 + 4) 0x0B).set (entryOffset 1 + 8) 0x00).set
    (entryOffset 1 + 9) 0x08).set (entryOffset 1 + 12) 0xE8).set
    (entryOffset 1 + 13) 0x03 |>.set (entryOffset 2 + 4) 0x0C |>.set
    (entryOffset 2 + 8) 0x01

set_option maxRecDepth 8000 in
theorem locate_fat32_partition_witness :
    locate_fat32_partition mbrSample = Except.ok ⟨0x0B, 2048, 1000⟩ := by
  have h := (locate_fat32_partition_spec mbrSample).2.2 1 (by omega) (by decide)
    (by decide) (by decide)
  simpa using h

/-! ## FatVolume: cluster chains

Modelled from the spec (sections 3 and 4.3): the FAT is a table mapping each
cluster index to its successor; entry values at or above the FAT32
end-of-chain sentinel terminate a chain; clusters 0 and 1 are reserved, so a
next-pointer below 2 or beyond the table is a broken chain.  Traversal is a
fuel-bounded walk: `fat.length + 1` steps always suffice for a well-formed
chain, and exhausting the fuel (which only a cyclic chain can cause) reports
`CorruptChain`, as does a pointer outside the table. -/

def eocMarker : Nat := 0x0FFFFFF8

/-- The next-cluster pointer stored in the FAT for cluster `c`. -/
def fatNext (fat : List Nat) (c : Nat) : Nat := fat.getD c 0

/-- Fuel-bounded cluster-chain walk from cluster `c`. -/
def chainAux (fat : List Nat) : Nat → Nat → Except FsError (List Nat)
  | 0, _ => Except.error FsError.CorruptChain
  | fuel + 1, c =>
    if eocMarker ≤ c then Except.ok []
    else if c < 2 ∨ fat.length ≤ c then Except.error FsError.CorruptChain
    else
      match chainAux fat fuel (fatNext fat c) with
      | Except.ok rest => Except.ok (c :: rest)
      | Except.error e => Except.error e

/-- Modelled from the spec: `cluster_chain(start_cluster)` of section 4.3.
A first-cluster of 0 denotes an empty file (no chain); otherwise the chain is
walked with enough fuel for any non-cyclic chain. -/
def chainOf (fat : List Nat) (start : Nat) : Except FsError (List Nat) :=
  if start = 0 then Except.ok [] else chainAux fat (fat.length + 1) start

/-- Cluster `c` may appear inside a chain: not an end-of-chain sentinel and
inside the data-cluster range of the table. -/
def goodStep (fat : List Nat) (c : Nat) : Prop :=
  ¬ eocMarker ≤ c ∧ 2 ≤ c ∧ c < fat.length

/-- The orbit of `c` under the FAT makes `n` valid steps and then hits an
end-of-chain sentinel. -/
def goodPrefix (fat : List Nat) (c n : Nat) : Prop :=
  (∀ i < n, goodStep fat ((fatNext fat)^[i] c)) ∧ eocMarker ≤ (fatNext fat)^[n] c

theorem chainAux_ok_of_goodPrefix (fat : List Nat) :
    ∀ n c fuel, goodPrefix fat c n → n < fuel →
      chainAux fat fuel c
        = Except.ok ((List.range n).map fun i => (fatNext fat)^[i] c) := by
  intro n
  induction n with
  | zero =>
    intro c fuel h hf
    obtain ⟨-, h2⟩ := h
    cases fuel with
    | zero => omega
    | succ m =>
      simp only [Function.iterate_zero_apply] at h2
      simp [chainAux, h2]
  | succ n ih =>
    intro c fuel h hf
    obtain ⟨h1, h2⟩ := h
    have hc := h1 0 (Nat.succ_pos n)
    simp only [Function.iterate_zero_apply] at hc
    obtain ⟨hne, hge, hlt⟩ := hc
    cases fuel with
    | zero => omega
    | succ m =>
      have hshift : goodPrefix fat (fatNext fat c) n := by
        constructor
        · intro i hi
          have hstep := h1 (i + 1) (by omega)
          rwa [Function.iterate_succ_apply] at hstep
        · rwa [Function.iterate_succ_apply] at h2
      have hnotout : ¬ (c < 2 ∨ fat.length ≤ c) := by omega
      have hrec := ih (fatNext fat c) m hshift (by omega)
      simp only [chainAux, if_neg hne, if_neg hnotout, hrec]
      congr 1
      rw [List.range_succ_eq_map, List.map_cons, List.map_map]
      simp [Function.iterate_succ_apply, Function.comp_def]

theorem goodPrefix_of_chainAux_ok (fat : List Nat) :
    ∀ fuel c l, chainAux fat fuel c = Except.ok l →
      goodPrefix fat c l.length
        ∧ l = (List.range l.length).map fun i => (fatNext fat)^[i] c := by
  intro fuel
  induction fuel with
  | zero => intro c l h; exact absurd h (by simp [chainAux])
  | succ m ih =>
    intro c l h
    by_cases heoc : eocMarker ≤ c
    · rw [chainAux, if_pos heoc] at h
      cases h
      refine ⟨⟨fun i hi => absurd hi (by simp), ?_⟩, rfl⟩
      simpa using heoc
    · by_cases hout : c < 2 ∨ fat.length ≤ c
      · rw [chainAux, if_neg heoc, if_pos hout] at h
        cases h
      · rw [chainAux, if_neg heoc, if_neg hout] at h
        cases hrec : chainAux fat m (fatNext fat c) with
        | error e => rw [hrec] at h; cases h
        | ok rest =>
          rw [hrec] at h
          cases h
          obtain ⟨⟨hg, he⟩, hrest⟩ := ih (fatNext fat c) rest hrec
          refine ⟨⟨?_, ?_⟩, ?_⟩
          · intro i hi
            cases i with
            | zero =>
              simp only [Function.iterate_zero_apply]
              exact ⟨heoc, by omega, by omega⟩
            | succ i =>
              rw [Function.iterate_succ_apply]
              exact hg i (by simpa using hi)
          · rw [List.length_cons, Function.iterate_succ_apply]
            exact he
          · rw [List.length_cons, List.range_succ_eq_map, List.map_cons, List.map_map]
            simp only [Function.iterate_zero_apply, List.cons.injEq, true_and]
            conv_lhs => rw [hrest]
            congr 1

theorem chainAux_error_eq (fat : List Nat) :
    ∀ fuel c e, chainAux fat fuel c = Except.error e → e = FsError.CorruptChain := by
  intro fuel
  induction fuel with
  | zero =>
    intro c e h
    rw [chainAux] at h
    cases h
    rfl
  | succ m ih =>
    intro c e h
    by_cases heoc : eocMarker ≤ c
    · rw [chainAux, if_pos heoc] at h; cases h
    · by_cases hout : c < 2 ∨ fat.length ≤ c
      · rw [chainAux, if_neg heoc, if_pos hout] at h
        cases h
        rfl
      · rw [chainAux, if_neg heoc, if_neg hout] at h
        cases hrec : chainAux fat m (fatNext fat c) with
        | ok rest => rw [hrec] at h; cases h
        | error e2 =>
          rw [hrec] at h
          cases h
          exact ih (fatNext fat c) _ hrec

theorem chainAux_error_of_no_eoc (fat : List Nat) :
    ∀ fuel c, (∀ n < fuel, ¬ eocMarker ≤ (fatNext fat)^[n] c) →
      chainAux fat fuel c = Except.error FsError.CorruptChain := by
  intro fuel
  induction fuel with
  | zero => intro c _; rfl
  | succ m ih =>
    intro c h
    have h0 : ¬ eocMarker ≤ c := by simpa using h 0 (Nat.succ_pos m)
    by_cases hout : c < 2 ∨ fat.length ≤ c
    · rw [chainAux, if_neg h0, if_pos hout]
    · have hrec := ih (fatNext fat c) (fun n hn => by
        have hh := h (n + 1) (by omega)
        rwa [Function.iterate_succ_apply] at hh)
      rw [chainAux, if_neg h0, if_neg hout, hrec]

theorem iterate_stable {α : Type} (f : α → α) (x : α) (j k : Nat)
    (hp : f^[j + k] x = f^[j] x) : ∀ m, j ≤ m → f^[m + k] x = f^[m] x := by
  intro m hm
  obtain ⟨d, rfl⟩ := Nat.exists_eq_add_of_le hm
  have h1 : f^[j + d + k] x = f^[d] (f^[j + k] x) := by
    rw [← Function.iterate_add_apply]
    congr 1
    omega
  rw [h1, hp, ← Function.iterate_add_apply]
  congr 1
  omega

theorem iterate_mod {α : Type} (f : α → α) (x : α) (j k : Nat) (hk : 0 < k)
    (hp : f^[j + k] x = f^[j] x) : ∀ t, j ≤ t → f^[t] x = f^[j + (t - j) % k] x := by
  intro t
  induction t using Nat.strong_induction_on with
  | _ t ih =>
    intro ht
    by_cases hlt : t - j < k
    · rw [Nat.mod_eq_of_lt hlt]
      congr 1
      omega
    · have h1 : f^[t] x = f^[t - k] x := by
        have hs := iterate_stable f x j k hp (t - k) (by omega)
        rwa [show t - k + k = t from by omega] at hs
      rw [h1, ih (t - k) (by omega) (by omega)]
      congr 2
      rw [show t - j = t - k - j + k from by omega, Nat.add_mod_right]

theorem chain_nodup (fat : List Nat) (c n : Nat) (h : goodPrefix fat c n) :
    ((List.range n).map fun i => (fatNext fat)^[i] c).Nodup := by
  have hpw : List.Pairwise
      (fun i j => (fatNext fat)^[i] c ≠ (fatNext fat)^[j] c) (List.range n) := by
    refine (List.pairwise_lt_range n).imp_of_mem ?_
    intro i j hi hj hij heq
    rw [List.mem_range] at hi hj
    have hk : 0 < j - i := by omega
    have hper : (fatNext fat)^[i + (j - i)] c = (fatNext fat)^[i] c := by
      rw [show i + (j - i) = j from by omega]
      exact heq.symm
    have hmod := iterate_mod (fatNext fat) c i (j - i) hk hper n (by omega)
    have hmlt : i + (n - i) % (j - i) < n := by
      have := Nat.mod_lt (n - i) hk
      omega
    have heoc := h.2
    rw [hmod] at heoc
    exact (h.1 _ hmlt).1 heoc
  exact (List.pairwise_map).mpr hpw

theorem chain_length_le (fat : List Nat) (c n : Nat) (h : goodPrefix fat c n) :
    n ≤ fat.length := by
  classical
  have hnd : ((List.range n).map fun i => (fatNext fat)^[i] c).Nodup :=
    chain_nodup fat c n h
  have hsub : ((List.range n).map fun i => (fatNext fat)^[i] c).toFinset
      ⊆ Finset.range fat.length := by
    intro x hx
    rw [List.mem_toFinset] at hx
    rw [Finset.mem_range]
    obtain ⟨i, hi, rfl⟩ := List.mem_map.mp hx
    rw [List.mem_range] at hi
    exact (h.1 i hi).2.2
  have hcard := Finset.card_le_card hsub
  rw [Finset.card_range, List.toFinset_card_of_nodup hnd] at hcard
  simpa using hcard

theorem chainAux_fuel_stable (fat : List Nat) (fuel c : Nat)
    (hf : fat.length + 1 ≤ fuel) :
    chainAux fat fuel c = chainAux fat (fat.length + 1) c := by
  cases hres : chainAux fat fuel c with
  | ok l =>
    obtain ⟨hg, hl⟩ := goodPrefix_of_chainAux_ok fat fuel c l hres
    have hlen : l.length ≤ fat.length := chain_length_le fat c l.length hg
    rw [chainAux_ok_of_goodPrefix fat l.length c (fat.length + 1) hg (by omega), ← hl]
  | error e =>
    have he := chainAux_error_eq fat fuel c e hres
    subst he
    cases hres2 : chainAux fat (fat.length + 1) c with
    | ok l =>
      obtain ⟨hg, hl⟩ := goodPrefix_of_chainAux_ok fat _ c l hres2
      have hlen : l.length ≤ fat.length := chain_length_le fat c l.length hg
      have hok := chainAux_ok_of_goodPrefix fat l.length c fuel hg (by omega)
      rw [← hl] at hok
      rw [hok] at hres
      cases hres
    | error e2 =>
      rw [chainAux_error_eq fat _ c e2 hres2]

/-- Claim C4: the session subsystem always returns control to its caller, on
every failure path included.  Every operation of this embedding is a total
function; the one iteration that mirrors a source-level loop, the
cluster-chain walk, stabilises at `fat.length + 1` steps (extra fuel never
changes its result, so it has already returned — even on corrupt input), and
every chain walk yields either a chain or a fail-fast `CorruptChain` error,
never an internal infinite loop. -/
theorem subsystem_always_returns :
    (∀ (fat : List Nat) (fuel c : Nat), fat.length + 1 ≤ fuel →
        chainAux fat fuel c = chainAux fat (fat.length + 1) c)
    ∧ (∀ (fat : List Nat) (start : Nat),
        (∃ l, chainOf fat start = Except.ok l)
        ∨ chainOf fat start = Except.error FsError.CorruptChain) := by
  constructor
  · exact fun fat fuel c hf => chainAux_fuel_stable fat fuel c hf
  · intro fat start
    rw [chainOf]
    split
    · exact Or.inl ⟨[], rfl⟩
    · cases hres : chainAux fat (fat.length + 1) start with
      | ok l => exact Or.inl ⟨l, rfl⟩
      | error e =>
        rw [chainAux_error_eq fat _ start e hres]
        exact Or.inr rfl

theorem subsystem_always_returns_witness :
    chainAux [0, 0, 3, 2] 10 2 = chainAux [0, 0, 3, 2] 5 2 :=
  subsystem_always_returns.1 [0, 0, 3, 2] 10 2 (by simp)

/-- Claim C8: a cluster chain whose next-pointer structure forms a cycle
(the orbit of `start` repeats after `j + k` steps without ever meeting an
end-of-chain sentinel) is detected and reported as `CorruptChain`; and the
bounded traversal never silently truncates: whenever it returns a chain, that
chain is the entire orbit of `start` up to the first end-of-chain sentinel. -/
theorem corrupt_chain_detection (fat : List Nat) (start : Nat) :
    (∀ j k, 0 < k → (fatNext fat)^[j + k] start = (fatNext fat)^[j] start →
        (∀ n ≤ j + k, ¬ eocMarker ≤ (fatNext fat)^[n] start) → start ≠ 0 →
        chainOf fat start = Except.error FsError.CorruptChain)
    ∧ (∀ l, chainOf fat start = Except.ok l → start ≠ 0 →
        (∀ i, ∀ hi : i < l.length, l.get ⟨i, hi⟩ = (fatNext fat)^[i] start)
        ∧ eocMarker ≤ (fatNext fat)^[l.length] start) := by
  constructor
  · intro j k hk hcyc hne h0
    have hnoeoc : ∀ n, ¬ eocMarker ≤ (fatNext fat)^[n] start := by
      intro n
      by_cases hn : n ≤ j + k
      · exact hne n hn
      · have hmod := iterate_mod (fatNext fat) start j k hk hcyc n (by omega)
        rw [hmod]
        refine hne _ ?_
        have := Nat.mod_lt (n - j) hk
        omega
    rw [chainOf, if_neg h0]
    exact chainAux_error_of_no_eoc fat _ start (fun n _ => hnoeoc n)
  · intro l hok h0
    rw [chainOf, if_neg h0] at hok
    obtain ⟨hg, hl⟩ := goodPrefix_of_chainAux_ok fat _ start l hok
    constructor
    · intro i hi
      have hsome : l[i]? = some ((fatNext fat)^[i] start) := by
        conv_lhs => rw [hl]
        simp [hi]
      rw [List.get_eq_getElem]
      rw [List.getElem?_eq_getElem hi] at hsome
      exact Option.some.inj hsome
    · exact hg.2

theorem corrupt_chain_detection_witness :
    chainOf [0, 0, 3, 2] 2 = Except.error FsError.CorruptChain :=
  (corrupt_chain_detection [0, 0, 3, 2] 2).1 0 2 (by omega) (by decide)
    (by decide) (by decide)

/-! ## DirectoryIndex and FileHandle

Modelled from the spec (sections 3, 4.4 and 4.5).  Simplifications that the
spec leaves open and no claim exercises: names are compared by plain string
equality (the scenarios only use one literal, already-uppercase 8.3 name);
directory growth is unbounded (the spec lets FAT32 directories extend by
appending clusters, failing only when allocation fails); timestamps are
omitted (the example's `DummyTimesource` is constantly zero). -/

/-- An 8.3 directory entry: name, first cluster of its chain (0 for an empty
file), and byte size. -/
structure DirEntry where
  name : String
  firstCluster : Nat
  size : Nat
  deriving DecidableEq, Repr

/-- The state of a mounted FAT volume. -/
structure Fs where
  bytesPerCluster : Nat
  fat : List Nat
  clusters : List (List Nat)
  dir : List DirEntry
  openNames : List String
  deriving DecidableEq, Repr

/-- The two open modes the example uses. -/
inductive FileMode
  | ReadOnly
  | ReadWriteCreateOrTruncate
  deriving DecidableEq, Repr

/-- An open (or closed) file handle: owning entry name, mode, the chain head
and size as last known by the handle, cursor, dirty flag, closed flag. -/
structure FileHandle where
  name : String
  mode : FileMode
  firstCluster : Nat
  size : Nat
  pos : Nat
  dirty : Bool
  closed : Bool
  deriving DecidableEq, Repr

/-- Directory lookup by name. -/
def findEntry (dir : List DirEntry) (name : String) : Option DirEntry :=
  dir.find? fun e => e.name == name

/-- Rewrite the named entry's first cluster and size in place. -/
def updateEntry (dir : List DirEntry) (name : String) (firstCluster size : Nat) :
    List DirEntry :=
  dir.map fun e =>
    if e.name == name then { e with firstCluster := firstCluster, size := size } else e

/-- Mark every cluster of a chain free in the FAT. -/
def freeChain (fat : List Nat) : List Nat → List Nat
  | [] => fat
  | c :: cs => freeChain (fat.set c 0) cs

/-- The free data clusters of a FAT, in ascending order. -/
def freeList (fat : List Nat) : List Nat :=
  (List.range fat.length).filter fun c => decide (2 ≤ c) && decide (fat.getD c 1 = 0)

/-- Split a list into chunks of `k + 1` elements (the last one possibly
shorter); `fuel` bounds the recursion and any value at least the list's
length is enough. -/
def chunksFuel : Nat → Nat → List Nat → List (List Nat)
  | _, _, [] => []
  | 0, _, _ :: _ => []
  | fuel + 1, k, x :: xs => ((x :: xs).take (k + 1)) :: chunksFuel fuel k (xs.drop k)

/-- Split a list into cluster-sized chunks (`k` bytes each, the last one
possibly shorter; no chunk is produced for empty data). -/
def chunkList (k : Nat) (l : List Nat) : List (List Nat) :=
  match k with
  | 0 => []
  | k + 1 => chunksFuel l.length k l

/-- Link the clusters `cs` into a FAT chain, the last one marked
end-of-chain. -/
def linkChain (fat : List Nat) : List Nat → List Nat
  | [] => fat
  | [c] => fat.set c eocMarker
  | c₁ :: c₂ :: rest => linkChain (fat.set c₁ c₂) (c₂ :: rest)

/-- Store the data chunks `ds` into the clusters `cs`, pairwise. -/
def storeChunks (clusters : List (List Nat)) : List Nat → List (List Nat) → List (List Nat)
  | [], _ => clusters
  | _ :: _, [] => clusters
  | c :: cs, d :: ds => storeChunks (clusters.set c d) cs ds

/-- The bytes of a file, cluster chain order. -/
def contentOf (clusters : List (List Nat)) (chain : List Nat) : List Nat :=
  (chain.map fun c => clusters.getD c []).flatten

/-- A handle fresh from `open` on an empty or truncated file. -/
def freshHandle (name : String) (mode : FileMode) : FileHandle :=
  { name := name
    mode := mode
    firstCluster := 0
    size := 0
    pos := 0
    dirty := false
    closed := false }

/-- Modelled from the spec: `open(dir, name, mode)` (section 4.5). A second
open of a name still open fails with `AlreadyOpen`; `ReadOnly` fails with
`NotFound` on an absent name; `ReadWriteCreateOrTruncate` creates an empty
entry for an absent name and truncates (freeing the cluster chain) an
existing one. -/
def openFile (fs : Fs) (name : String) (mode : FileMode) :
    Except FsError (FileHandle × Fs) :=
  if name ∈ fs.openNames then Except.error FsError.AlreadyOpen
  else
    match mode with
    | FileMode.ReadOnly =>
      match findEntry fs.dir name with
      | none => Except.error FsError.NotFound
      | some e =>
        Except.ok ({ freshHandle name mode with
            firstCluster := e.firstCluster
            size := e.size },
          { fs with openNames := name :: fs.openNames })
    | FileMode.ReadWriteCreateOrTruncate =>
      match findEntry fs.dir name with
      | none =>
        Except.ok (freshHandle name mode,
          { fs with
            dir := fs.dir ++ [⟨name, 0, 0⟩]
            openNames := name :: fs.openNames })
      | some e =>
        match chainOf fs.fat e.firstCluster with
        | Except.error er => Except.error er
        | Except.ok chain =>
          Except.ok (freshHandle name mode,
            { fs with
              fat := freeChain fs.fat chain
              dir := updateEntry fs.dir name 0 0
              openNames := name :: fs.openNames })

/-- Modelled from the spec: `read(buf)` (section 4.5): sequential, advances
the cursor, stops at end-of-file or after `n` bytes; returns the bytes read. -/
def readData (fs : Fs) (hd : FileHandle) (n : Nat) :
    Except FsError (List Nat × FileHandle) :=
  match chainOf fs.fat hd.firstCluster with
  | Except.error e => Except.error e
  | Except.ok chain =>
    let content := (contentOf fs.clusters chain).take hd.size
    let out := (content.drop hd.pos).take n
    Except.ok (out, { hd with pos := hd.pos + out.length })

/-- Modelled from the spec: `write(buf)` (section 4.5): overwrites from the
cursor and extends the file, re-chunking the file's bytes over freshly
allocated clusters (the old chain is freed first, so extension on demand
needs only the net new clusters); fails with `DeviceFull` when not enough
free clusters exist; marks the handle dirty. -/
def writeData (fs : Fs) (hd : FileHandle) (buf : List Nat) :
    Except FsError (FileHandle × Fs) :=
  match chainOf fs.fat hd.firstCluster with
  | Except.error e => Except.error e
  | Except.ok chain =>
    let content := (contentOf fs.clusters chain).take hd.size
    let newContent := content.take hd.pos ++ buf ++ content.drop (hd.pos + buf.length)
    let fat₁ := freeChain fs.fat chain
    let need := chunkList fs.bytesPerCluster newContent
    let avail := freeList fat₁
    if need.length ≤ avail.length then
      let cs := avail.take need.length
      Except.ok ({ hd with
          firstCluster := cs.headD 0
          size := newContent.length
          pos := hd.pos + buf.length
          dirty := true },
        { fs with
          fat := linkChain fat₁ cs
          clusters := storeChunks fs.clusters cs need })
    else Except.error FsError.DeviceFull

/-- Modelled from the spec: `close()` (section 4.5): when dirty, flushes the
handle's size and first cluster into the owning directory entry; releases
the open-name guard; a close on an already-closed handle is a no-op, not an
error. -/
def closeFile (fs : Fs) (hd : FileHandle) : FileHandle × Fs :=
  if hd.closed then (hd, fs)
  else
    let fs₁ :=
      if hd.dirty then
        { fs with dir := updateEntry fs.dir hd.name hd.firstCluster hd.size }
      else fs
    ({ hd with closed := true, dirty := false },
      { fs₁ with openNames := fs₁.openNames.erase hd.name })

/-- A freshly formatted volume: clusters 0 and 1 reserved, all data clusters
free, all cluster buffers empty, an empty root directory, no open handles. -/
def mkFs (bpc nClusters : Nat) : Fs :=
  { bytesPerCluster := bpc
    fat := ((List.replicate nClusters 0).set 0 eocMarker).set 1 eocMarker
    clusters := List.replicate nClusters []
    dir := []
    openNames := [] }

/-- Claim C7: `close()` is idempotent — closing an already-closed handle is a
no-op that is not an error (by construction `closeFile` total) and leaves the
filesystem state, the flushed directory metadata included, untouched. -/
theorem close_idempotent (fs : Fs) (hd : FileHandle) :
    closeFile (closeFile fs hd).2 (closeFile fs hd).1 = closeFile fs hd := by
  cases hcl : hd.closed with
  | true => simp [closeFile, hcl]
  | false => simp [closeFile, hcl]

/-- Claim C6: while a handle on `(directory, name)` is open, a second open
attempt on the same path — in either mode — fails with `AlreadyOpen`. -/
theorem second_open_fails (fs : Fs) (name : String) (m m₂ : FileMode)
    (hd : FileHandle) (fs₁ : Fs) (h : openFile fs name m = Except.ok (hd, fs₁)) :
    openFile fs₁ name m₂ = Except.error FsError.AlreadyOpen := by
  have hmem : name ∈ fs₁.openNames := by
    unfold openFile at h
    split at h
    · cases h
    · split at h
      · split at h
        · cases h
        · cases h
          exact List.mem_cons_self _ _
      · split at h
        · cases h
          exact List.mem_cons_self _ _
        · split at h
          · cases h
          · cases h
            exact List.mem_cons_self _ _
  unfold openFile
  rw [if_pos hmem]

theorem second_open_fails_witness :
    openFile
      { bytesPerCluster := 4
        fat := [eocMarker, eocMarker, 0, 0, 0, 0, 0, 0]
        clusters := List.replicate 8 []
        dir := [⟨"A", 0, 0⟩]
        openNames := ["A"] } "A" FileMode.ReadOnly
      = Except.error FsError.AlreadyOpen :=
  second_open_fails (mkFs 4 8) "A" FileMode.ReadWriteCreateOrTruncate FileMode.ReadOnly
    (freshHandle "A" FileMode.ReadWriteCreateOrTruncate)
    { bytesPerCluster := 4
      fat := [eocMarker, eocMarker, 0, 0, 0, 0, 0, 0]
      clusters := List.replicate 8 []
      dir := [⟨"A", 0, 0⟩]
      openNames := ["A"] } rfl

/-! ## Write/read round trip -/

theorem getD_set_self {α : Type} (l : List α) (i : Nat) (a d : α) (h : i < l.length) :
    (l.set i a).getD i d = a := by
  rw [List.getD_eq_getElem?_getD, List.getElem?_set_self h]
  rfl

theorem getD_set_ne {α : Type} (l : List α) (i j : Nat) (a d : α) (h : i ≠ j) :
    (l.set i a).getD j d = l.getD j d := by
  rw [List.getD_eq_getElem?_getD, List.getD_eq_getElem?_getD, List.getElem?_set_ne h]

theorem linkChain_length : ∀ (cs fat : List Nat), (linkChain fat cs).length = fat.length := by
  intro cs
  induction cs with
  | nil => intro fat; rfl
  | cons c cs ih =>
    intro fat
    cases cs with
    | nil => simp [linkChain]
    | cons c₂ rest =>
      have hstep : linkChain fat (c :: c₂ :: rest) = linkChain (fat.set c c₂) (c₂ :: rest) :=
        rfl
      rw [hstep, ih, List.length_set]

theorem linkChain_getD_notMem :
    ∀ (cs fat : List Nat) (c : Nat), c ∉ cs →
      (linkChain fat cs).getD c 0 = fat.getD c 0 := by
  intro cs
  induction cs with
  | nil => intro fat c _; rfl
  | cons c₁ cs ih =>
    intro fat c h
    have hne : c₁ ≠ c := fun he => h (he ▸ List.mem_cons_self _ _)
    cases cs with
    | nil => exact getD_set_ne fat c₁ c eocMarker 0 hne
    | cons c₂ rest =>
      have hstep : linkChain fat (c₁ :: c₂ :: rest)
          = linkChain (fat.set c₁ c₂) (c₂ :: rest) := rfl
      rw [hstep, ih (fat.set c₁ c₂) c (fun hm => h (List.mem_cons_of_mem _ hm))]
      exact getD_set_ne fat c₁ c c₂ 0 hne

theorem chainAux_linkChain :
    ∀ (cs fat : List Nat) (fuel c : Nat),
      (c :: cs).Nodup → (∀ x ∈ c :: cs, 2 ≤ x ∧ x < fat.length) →
      fat.length ≤ eocMarker → cs.length + 1 < fuel →
      chainAux (linkChain fat (c :: cs)) fuel c = Except.ok (c :: cs) := by
  intro cs
  induction cs with
  | nil =>
    intro fat fuel c hnd hmem heoc hf
    obtain ⟨hc2, hclt⟩ := hmem c (List.mem_cons_self _ _)
    cases fuel with
    | zero => exact absurd hf (by omega)
    | succ m =>
    cases m with
    | zero => exact absurd hf (by omega)
    | succ m₂ =>
      have hlen : (linkChain fat [c]).length = fat.length := linkChain_length _ _
      have hne : ¬ eocMarker ≤ c := by omega
      have hout : ¬ (c < 2 ∨ (linkChain fat [c]).length ≤ c) := by
        rw [hlen]; omega
      have hnext : fatNext (linkChain fat [c]) c = eocMarker :=
        getD_set_self fat c eocMarker 0 hclt
      rw [chainAux, if_neg hne, if_neg hout, hnext, chainAux,
        if_pos (le_refl eocMarker)]
  | cons c₂ rest ih =>
    intro fat fuel c hnd hmem heoc hf
    obtain ⟨hc2, hclt⟩ := hmem c (List.mem_cons_self _ _)
    cases fuel with
    | zero => exact absurd hf (by omega)
    | succ m =>
      have hstep : linkChain fat (c :: c₂ :: rest)
          = linkChain (fat.set c c₂) (c₂ :: rest) := rfl
      have hlen : (linkChain fat (c :: c₂ :: rest)).length = fat.length :=
        linkChain_length _ _
      have hne : ¬ eocMarker ≤ c := by omega
      have hout : ¬ (c < 2 ∨ (linkChain fat (c :: c₂ :: rest)).length ≤ c) := by
        rw [hlen]; omega
      have hcnot : c ∉ c₂ :: rest := (List.nodup_cons.mp hnd).1
      have hnext : fatNext (linkChain fat (c :: c₂ :: rest)) c = c₂ := by
        show (linkChain fat (c :: c₂ :: rest)).getD c 0 = c₂
        rw [hstep, linkChain_getD_notMem (c₂ :: rest) (fat.set c c₂) c hcnot]
        exact getD_set_self fat c c₂ 0 hclt
      have hrec := ih (fat.set c c₂) m c₂ (List.nodup_cons.mp hnd).2
        (fun x hx => by
          have hm := hmem x (List.mem_cons_of_mem _ hx)
          simpa [List.length_set] using hm)
        (by simpa [List.length_set] using heoc)
        (by simp only [List.length_cons] at hf; omega)
      rw [chainAux, if_neg hne, if_neg hout, hnext, hstep, hrec]

theorem chainOf_linkChain (fat cs : List Nat)
    (hnd : cs.Nodup) (hmem : ∀ x ∈ cs, 2 ≤ x ∧ x < fat.length)
    (heoc : fat.length ≤ eocMarker) (hlen : cs.length ≤ fat.length) :
    chainOf (linkChain fat cs) (cs.headD 0) = Except.ok cs := by
  cases cs with
  | nil => rfl
  | cons c cs =>
    have h2 := (hmem c (List.mem_cons_self _ _)).1
    rw [List.headD_cons, chainOf, if_neg (by omega), linkChain_length]
    exact chainAux_linkChain cs fat (fat.length + 1) c hnd hmem heoc
      (by simp only [List.length_cons] at hlen; omega)

theorem storeChunks_length :
    ∀ (cs : List Nat) (ds clusters : List (List Nat)),
      (storeChunks clusters cs ds).length = clusters.length := by
  intro cs
  induction cs with
  | nil => intro ds clusters; simp [storeChunks]
  | cons c cs ih =>
    intro ds clusters
    cases ds with
    | nil => simp [storeChunks]
    | cons d ds =>
      show (storeChunks (clusters.set c d) cs ds).length = _
      rw [ih, List.length_set]

theorem storeChunks_getD_notMem :
    ∀ (cs : List Nat) (ds clusters : List (List Nat)) (c : Nat),
      c ∉ cs → (storeChunks clusters cs ds).getD c [] = clusters.getD c [] := by
  intro cs
  induction cs with
  | nil => intro ds clusters c _; simp [storeChunks]
  | cons c₁ cs ih =>
    intro ds clusters c h
    have hne : c₁ ≠ c := fun he => h (he ▸ List.mem_cons_self _ _)
    cases ds with
    | nil => simp [storeChunks]
    | cons d ds =>
      show (storeChunks (clusters.set c₁ d) cs ds).getD c [] = _
      rw [ih ds (clusters.set c₁ d) c (fun hm => h (List.mem_cons_of_mem _ hm))]
      exact getD_set_ne clusters c₁ c d [] hne

theorem storeChunks_map_getD :
    ∀ (cs : List Nat) (ds clusters : List (List Nat)),
      cs.Nodup → cs.length = ds.length → (∀ c ∈ cs, c < clusters.length) →
      cs.map (fun c => (storeChunks clusters cs ds).getD c []) = ds := by
  intro cs
  induction cs with
  | nil =>
    intro ds clusters _ hlen _
    rw [List.map_nil, List.eq_nil_of_length_eq_zero hlen.symm]
  | cons c cs ih =>
    intro ds clusters hnd hlen hmem
    cases ds with
    | nil => simp at hlen
    | cons d ds =>
      have hcnot : c ∉ cs := (List.nodup_cons.mp hnd).1
      show (c :: cs).map (fun x => (storeChunks (clusters.set c d) cs ds).getD x [])
          = d :: ds
      rw [List.map_cons]
      congr 1
      · rw [storeChunks_getD_notMem cs ds (clusters.set c d) c hcnot]
        exact getD_set_self clusters c d [] (hmem c (List.mem_cons_self _ _))
      · exact ih ds (clusters.set c d) (List.nodup_cons.mp hnd).2
          (by simpa using hlen)
          (fun x hx => by
            simpa [List.length_set] using hmem x (List.mem_cons_of_mem _ hx))

theorem chunksFuel_flatten (k : Nat) :
    ∀ (fuel : Nat) (l : List Nat), l.length ≤ fuel →
      (chunksFuel fuel k l).flatten = l := by
  intro fuel
  induction fuel with
  | zero =>
    intro l h
    have hl : l = [] := List.eq_nil_of_length_eq_zero (by omega)
    subst hl
    rfl
  | succ n ih =>
    intro l h
    cases l with
    | nil => rfl
    | cons x xs =>
      rw [chunksFuel, List.flatten_cons,
        ih (xs.drop k) (by simp only [List.length_drop]; simp at h; omega),
        show xs.drop k = (x :: xs).drop (k + 1) from rfl,
        List.take_append_drop]

theorem chunkList_flatten (k : Nat) (hk : 1 ≤ k) (l : List Nat) :
    (chunkList k l).flatten = l := by
  match k, hk with
  | k + 1, _ => exact chunksFuel_flatten k l.length l le_rfl

theorem freeList_nodup (fat : List Nat) : (freeList fat).Nodup :=
  (List.nodup_range _).filter _

theorem freeList_mem (fat : List Nat) (c : Nat) (h : c ∈ freeList fat) :
    2 ≤ c ∧ c < fat.length := by
  rw [freeList, List.mem_filter, List.mem_range] at h
  obtain ⟨h1, h2⟩ := h
  simp only [Bool.and_eq_true, decide_eq_true_eq] at h2
  exact ⟨h2.1, h1⟩

theorem filter_range_two_le (n : Nat) :
    ((List.range n).filter fun c => decide (2 ≤ c)) = (List.range n).drop 2 := by
  induction n with
  | zero => rfl
  | succ n ih =>
    by_cases h2 : 2 ≤ n
    · rw [List.range_succ, List.filter_append, ih,
        List.drop_append_of_le_length (by simpa using h2)]
      congr 1
      simp [h2]
    · have hn : n < 2 := by omega
      interval_cases n <;> rfl

theorem freeList_mkFs (bpc n : Nat) :
    freeList (mkFs bpc n).fat = (List.range n).drop 2 := by
  have hlen : (mkFs bpc n).fat.length = n := by simp [mkFs]
  rw [freeList, hlen, ← filter_range_two_le n]
  apply List.filter_congr
  intro c hc
  rw [List.mem_range] at hc
  by_cases h2 : 2 ≤ c
  · have hget : (mkFs bpc n).fat.getD c 1 = 0 := by
      show (((List.replicate n 0).set 0 eocMarker).set 1 eocMarker).getD c 1 = 0
      rw [getD_set_ne _ 1 c eocMarker 1 (by omega),
        getD_set_ne _ 0 c eocMarker 1 (by omega),
        List.getD_eq_getElem?_getD, List.getElem?_replicate, if_pos hc]
      rfl
    show (decide (2 ≤ c) && decide ((mkFs bpc n).fat.getD c 1 = 0)) = decide (2 ≤ c)
    rw [hget]
    simp [h2]
  · simp [h2]

/-- One write/read round trip on a fresh volume: create `name`, write `data`,
close, reopen read-only, read the file's size, return the bytes read. -/
def roundTrip (bpc n : Nat) (name : String) (data : List Nat) :
    Except FsError (List Nat) :=
  match openFile (mkFs bpc n) name FileMode.ReadWriteCreateOrTruncate with
  | Except.error e => Except.error e
  | Except.ok (h₁, fs₁) =>
    match writeData fs₁ h₁ data with
    | Except.error e => Except.error e
    | Except.ok (h₂, fs₂) =>
      let cl := closeFile fs₂ h₂
      match openFile cl.2 name FileMode.ReadOnly with
      | Except.error e => Except.error e
      | Except.ok (h₄, fs₄) =>
        match readData fs₄ h₄ h₄.size with
        | Except.error e => Except.error e
        | Except.ok (out, _) => Except.ok out

theorem writeData_fresh (fs : Fs) (name : String) (mode : FileMode) (data : List Nat)
    (hfit : (chunkList fs.bytesPerCluster data).length ≤ (freeList fs.fat).length) :
    writeData fs (freshHandle name mode) data
      = Except.ok
          ({ name := name
             mode := mode
             firstCluster := ((freeList fs.fat).take
               (chunkList fs.bytesPerCluster data).length).headD 0
             size := data.length
             pos := data.length
             dirty := true
             closed := false },
           { fs with
             fat := linkChain fs.fat ((freeList fs.fat).take
               (chunkList fs.bytesPerCluster data).length)
             clusters := storeChunks fs.clusters
               ((freeList fs.fat).take (chunkList fs.bytesPerCluster data).length)
               (chunkList fs.bytesPerCluster data) }) := by
  simp [writeData, freshHandle, chainOf, contentOf, freeChain, hfit]

/-- Claim C2: on a fresh volume with enough free clusters, writing any `N`
bytes to a file, closing it, reopening it read-only and reading returns
exactly the `N` bytes written — for every data list, from empty up to data
spanning many clusters (the write allocating and linking the whole chain on
demand). -/
theorem write_read_roundtrip (bpc n : Nat) (name : String) (data : List Nat)
    (hbpc : 1 ≤ bpc) (hn : (chunkList bpc data).length ≤ n - 2)
    (hle : n ≤ eocMarker) :
    roundTrip bpc n name data = Except.ok data := by
  have hfatlen : (mkFs bpc n).fat.length = n := by simp [mkFs]
  have hfreelen : (freeList (mkFs bpc n).fat).length = n - 2 := by
    rw [freeList_mkFs]
    simp [List.length_drop]
  have hfit : (chunkList bpc data).length ≤ (freeList (mkFs bpc n).fat).length := by
    rw [hfreelen]
    exact hn
  obtain ⟨cs, hcs⟩ :
      ∃ cs, (freeList (mkFs bpc n).fat).take (chunkList bpc data).length = cs :=
    ⟨_, rfl⟩
  have hcs_nodup : cs.Nodup :=
    hcs ▸ List.Nodup.sublist (List.take_sublist _ _) (freeList_nodup _)
  have hcs_mem : ∀ x ∈ cs, 2 ≤ x ∧ x < (mkFs bpc n).fat.length := by
    intro x hx
    rw [← hcs] at hx
    exact freeList_mem _ x (List.take_subset _ _ hx)
  have hcs_len : cs.length = (chunkList bpc data).length := by
    rw [← hcs, List.length_take, hfreelen]
    exact min_eq_left hn
  have hopen1 : openFile (mkFs bpc n) name FileMode.ReadWriteCreateOrTruncate
      = Except.ok (freshHandle name FileMode.ReadWriteCreateOrTruncate,
          { mkFs bpc n with dir := [⟨name, 0, 0⟩], openNames := [name] }) := rfl
  have hw : writeData { mkFs bpc n with dir := [⟨name, 0, 0⟩], openNames := [name] }
        (freshHandle name FileMode.ReadWriteCreateOrTruncate) data
      = Except.ok
          ({ name := name
             mode := FileMode.ReadWriteCreateOrTruncate
             firstCluster := cs.headD 0
             size := data.length
             pos := data.length
             dirty := true
             closed := false },
           { mkFs bpc n with
             dir := [⟨name, 0, 0⟩]
             openNames := [name]
             fat := linkChain (mkFs bpc n).fat cs
             clusters := storeChunks (mkFs bpc n).clusters cs (chunkList bpc data) }) := by
    rw [← hcs]
    exact writeData_fresh _ name _ data (by simpa [mkFs] using hfit)
  have hc : closeFile
        { mkFs bpc n with
          dir := [⟨name, 0, 0⟩]
          openNames := [name]
          fat := linkChain (mkFs bpc n).fat cs
          clusters := storeChunks (mkFs bpc n).clusters cs (chunkList bpc data) }
        { name := name
          mode := FileMode.ReadWriteCreateOrTruncate
          firstCluster := cs.headD 0
          size := data.length
          pos := data.length
          dirty := true
          closed := false }
      = ({ name := name
           mode := FileMode.ReadWriteCreateOrTruncate
           firstCluster := cs.headD 0
           size := data.length
           pos := data.length
           dirty := false
           closed := true },
         { mkFs bpc n with
           dir := [⟨name, cs.headD 0, data.length⟩]
           openNames := []
           fat := linkChain (mkFs bpc n).fat cs
           clusters := storeChunks (mkFs bpc n).clusters cs (chunkList bpc data) }) := by
    simp [closeFile, updateEntry]
  have hro : openFile
        { mkFs bpc n with
          dir := [⟨name, cs.headD 0, data.length⟩]
          openNames := []
          fat := linkChain (mkFs bpc n).fat cs
          clusters := storeChunks (mkFs bpc n).clusters cs (chunkList bpc data) }
        name FileMode.ReadOnly
      = Except.ok
          ({ name := name
             mode := FileMode.ReadOnly
             firstCluster := cs.headD 0
             size := data.length
             pos := 0
             dirty := false
             closed := false },
           { mkFs bpc n with
             dir := [⟨name, cs.headD 0, data.length⟩]
             openNames := [name]
             fat := linkChain (mkFs bpc n).fat cs
             clusters := storeChunks (mkFs bpc n).clusters cs (chunkList bpc data) }) := by
    simp [openFile, findEntry, List.find?, freshHandle]
  have hchain : chainOf (linkChain (mkFs bpc n).fat cs) (cs.headD 0) = Except.ok cs :=
    chainOf_linkChain _ cs hcs_nodup hcs_mem (by rw [hfatlen]; exact hle)
      (by rw [hcs_len, hfatlen]; omega)
  have hcontent :
      contentOf (storeChunks (mkFs bpc n).clusters cs (chunkList bpc data)) cs = data := by
    rw [contentOf,
      storeChunks_map_getD cs (chunkList bpc data) (mkFs bpc n).clusters hcs_nodup hcs_len
        (fun c hc => by
          have hlt := (hcs_mem c hc).2
          rw [hfatlen] at hlt
          simpa [mkFs] using hlt)]
    exact chunkList_flatten bpc hbpc data
  have hread : readData
        { mkFs bpc n with
          dir := [⟨name, cs.headD 0, data.length⟩]
          openNames := [name]
          fat := linkChain (mkFs bpc n).fat cs
          clusters := storeChunks (mkFs bpc n).clusters cs (chunkList bpc data) }
        { name := name
          mode := FileMode.ReadOnly
          firstCluster := cs.headD 0
          size := data.length
          pos := 0
          dirty := false
          closed := false }
        data.length
      = Except.ok (data,
          { name := name
            mode := FileMode.ReadOnly
            firstCluster := cs.headD 0
            size := data.length
            pos := data.length
            dirty := false
            closed := false }) := by
    have hchain2 : chainOf (linkChain (mkFs bpc n).fat cs) (cs.head?.getD 0)
        = Except.ok cs := by
      simpa using hchain
    simp [readData, hchain2, hcontent]
  simp only [roundTrip, hopen1, hw, hc, hro, hread]

theorem write_read_roundtrip_witness :
    roundTrip 4 8 "A" [1, 2, 3, 4, 5, 6, 7, 8, 9, 10]
      = Except.ok [1, 2, 3, 4, 5, 6, 7, 8, 9, 10] :=
  write_read_roundtrip 4 8 "A" [1, 2, 3, 4, 5, 6, 7, 8, 9, 10]
    (by omega) (by decide) (by decide)

/-- The end-to-end scenario of the spec and of `main`: a fresh volume with
512-byte sectors and 8 sectors per cluster (4096 bytes per cluster); create
`O.TST` in `ReadWriteCreateOrTruncate` mode, write `[0x42, 0x1E]`, close,
reopen `ReadOnly`, read up to 32 bytes; the bytes read are returned. -/
def scenarioC1 : Except FsError (List Nat) :=
  match openFile (mkFs 4096 32) "O.TST" FileMode.ReadWriteCreateOrTruncate with
  | Except.error e => Except.error e
  | Except.ok (h₁, fs₁) =>
    match writeData fs₁ h₁ [0x42, 0x1E] with
    | Except.error e => Except.error e
    | Except.ok (h₂, fs₂) =>
      let cl := closeFile fs₂ h₂
      match openFile cl.2 "O.TST" FileMode.ReadOnly with
      | Except.error e => Except.error e
      | Except.ok (h₄, fs₄) =>
        match readData fs₄ h₄ 32 with
        | Except.error e => Except.error e
        | Except.ok (out, _) => Except.ok out

/-- Claim C1: in the end-to-end scenario (create `O.TST` read-write, write
`[0x42, 0x1E]`, close, reopen read-only, read into a 32-byte buffer), the
read returns exactly 2 bytes and they are `[0x42, 0x1E]`. -/
theorem end_to_end_scenario :
    scenarioC1 = Except.ok [0x42, 0x1E]
    ∧ ∃ out, scenarioC1 = Except.ok out ∧ out.length = 2
        ∧ out.getD 0 0 = 0x42 ∧ out.getD 1 0 = 0x1E :=
  ⟨rfl, [0x42, 0x1E], rfl, rfl, rfl, rfl⟩

end SpiPioSd
